import Mathlib

/-!
Verification development for the CoLRev repository.

This file gives a shallow embedding, in Lean 4, of the parts of the
repository that the specification talks about:

* `analysis/merge_duplicates.py`: the record-similarity function
  `get_similarity`, the similarity-matrix fill and candidate-extraction
  loop `calculate_similarities`, and the automatic merge
  `auto_merge_entries`;
* `colrev_core/process.py`: the record state machine (`RecordState`,
  `ProcessModel.transitions`, `get_preceding_states`,
  `check_process_precondition`);
* `colrev/loader/bib.py`: the provenance-field parser `_load_field_dict`;
* the merge title-compatibility rules of `Record.merge` (modelled from
  the specification, since the implementation is not part of the
  source tree here).

Python strings are modelled as `List Char`; Python floats are modelled
as exact rationals (`ℚ`); a missing pandas cell (NaN) is modelled as
`Option.none`, with `str(nan) = "nan"` and `NaN == x` false for every
`x` (including NaN), as in pandas/numpy.
-/

set_option maxRecDepth 4000

/- Batteries marks the `Rat` arithmetic operations `@[irreducible]` for
elaboration performance; restore the default reducibility so that
`decide` can evaluate concrete rational arithmetic.  This only changes
unfolding hints; it does not change any definition. -/
set_option allowUnsafeReducibility true
attribute [semireducible] Rat.add Rat.sub Rat.mul Rat.inv Rat.div Rat.ofScientific

/-- Python strings, modelled as lists of characters. -/
abbrev Str := List Char

/-! ## Python string primitives -/

/-- Python `str.lower()` (ASCII case folding, which is all the sources use). -/
def pyLower (s : Str) : Str := s.map Char.toLower

/-- Python `str.lstrip()` (strip leading whitespace). -/
def pyLstrip (s : Str) : Str := s.dropWhile (fun c => c.isWhitespace)

/-- Python `str.rstrip()` (strip trailing whitespace). -/
def pyRstrip (s : Str) : Str := (s.reverse.dropWhile (fun c => c.isWhitespace)).reverse

/-- Python `str.split(sep)` for a single-character separator `sep`. -/
def charSplit (sep : Char) : Str → List Str
  | [] => [[]]
  | c :: rest =>
    if c = sep then [] :: charSplit sep rest
    else
      match charSplit sep rest with
      | [] => [[c]]
      | h :: t => (c :: h) :: t

/-- Python `str.split(" and ")`, the author separator used by
`format_authors_string` in `analysis/merge_duplicates.py`. -/
def splitAnd : Str → List Str
  | ' ' :: 'a' :: 'n' :: 'd' :: ' ' :: rest => [] :: splitAnd rest
  | c :: rest =>
    match splitAnd rest with
    | [] => [[c]]
    | h :: t => (c :: h) :: t
  | [] => [[]]

/-- Python `str.split("; ")`, the provenance item separator used by
`colrev/loader/bib.py` (leftmost-first, non-overlapping). -/
def splitSemiSp : Str → List Str
  | [] => [[]]
  | [c] => [[c]]
  | c :: d :: rest =>
    if c = ';' ∧ d = ' ' then [] :: splitSemiSp rest
    else
      match splitSemiSp (d :: rest) with
      | [] => [[c]]
      | h :: t => (c :: h) :: t

/-- Whether the two-character substring `"; "` occurs in `s`. -/
def hasSemiSp : Str → Bool
  | c :: d :: rest => (decide (c = ';') && decide (d = ' ')) || hasSemiSp (d :: rest)
  | _ => false

/-- The character class `[A-Za-z0-9, ]` kept by
`re.sub(r"[^A-Za-z0-9, ]+", "", s)` on titles and author strings. -/
def keepTitleChar (c : Char) : Bool := c.isAlphanum || c = ',' || c = ' '

/-- `re.sub(r"[^A-Za-z0-9, ]+", "", s)`: keep letters, digits, commas, spaces. -/
def cleanTitle (s : Str) : Str := s.filter keepTitleChar

/-- `re.sub(r"[^A-Za-z0-9 ]+", "", s)`: keep letters, digits, spaces
(used on journal and booktitle strings). -/
def cleanOutlet (s : Str) : Str := s.filter (fun c => c.isAlphanum || c = ' ')

/-- `str(x)` for a pandas cell: a missing cell (NaN) prints as `"nan"`. -/
def pyStrO : Option String → Str
  | none => "nan".toList
  | some s => s.toList

/-- Pandas cell equality `df_a[f] == df_b[f]`: NaN compares unequal to
everything, including NaN itself. -/
def pandasEq (x y : Option String) : Bool :=
  match x, y with
  | some a, some b => decide (a = b)
  | _, _ => false

/-! ## fuzzywuzzy / difflib

`analysis/merge_duplicates.py` scores fields with `fuzz.ratio` and
`fuzz.partial_ratio` from fuzzywuzzy, which are built on
`difflib.SequenceMatcher` (Ratcliff-Obershelp).  The model below
implements `find_longest_match` by brute force with difflib's
documented tie-breaking (earliest in `a`, then earliest in `b`), the
recursive matching-block decomposition, adjacent-block coalescing and
the trailing sentinel block.  difflib's `autojunk` heuristic only
applies to sequences of length `≥ 200` and is outside the scope of the
inputs treated here, so it is not modelled.  Float arithmetic is
modelled by exact rationals, and `int(round(x))` by round-half-to-even
on rationals. -/

/-- Length of the common prefix run of two strings. -/
def runLen : Str → Str → Nat
  | a :: as', b :: bs => if a = b then runLen as' bs + 1 else 0
  | _, _ => 0

/-- `SequenceMatcher.find_longest_match` on the windows
`a[alo:ahi]`, `b[blo:bhi]`: the longest matching block, with ties
resolved toward the earliest start in `a`, then in `b`.  Returns
`(i, j, size)` with `(alo, blo, 0)` when there is no match. -/
def findLongestMatch (a b : Str) (alo ahi blo bhi : Nat) : Nat × Nat × Nat :=
  (List.range' alo (ahi - alo)).foldl
    (fun best i =>
      (List.range' blo (bhi - blo)).foldl
        (fun best j =>
          let k := runLen ((a.take ahi).drop i) ((b.take bhi).drop j)
          if best.2.2 < k then (i, j, k) else best)
        best)
    (alo, blo, 0)

/-- The recursive decomposition of `SequenceMatcher.get_matching_blocks`:
take the longest match, then recurse on the pieces to its left and to
its right.  The in-order traversal already produces the blocks in
sorted order.  `fuel` bounds the recursion depth; each level strictly
shrinks the window, so `a.length + b.length + 1` is always enough. -/
def mblocksAux (a b : Str) : Nat → Nat → Nat → Nat → Nat → List (Nat × Nat × Nat)
  | 0, _, _, _, _ => []
  | fuel + 1, alo, ahi, blo, bhi =>
    let m := findLongestMatch a b alo ahi blo bhi
    if m.2.2 = 0 then []
    else
      mblocksAux a b fuel alo m.1 blo m.2.1 ++
        m :: mblocksAux a b fuel (m.1 + m.2.2) ahi (m.2.1 + m.2.2) bhi

/-- The adjacent-block coalescing loop at the end of
`get_matching_blocks` (without the sentinel). -/
def coalesceBlocks (blocks : List (Nat × Nat × Nat)) : List (Nat × Nat × Nat) :=
  let step := blocks.foldl
    (fun (acc : List (Nat × Nat × Nat) × Nat × Nat × Nat) blk =>
      let cur := acc.2
      if cur.1 + cur.2.2 = blk.1 ∧ cur.2.1 + cur.2.2 = blk.2.1 then
        (acc.1, (cur.1, cur.2.1, cur.2.2 + blk.2.2))
      else if cur.2.2 ≠ 0 then (acc.1 ++ [cur], blk) else (acc.1, blk))
    ([], (0, 0, 0))
  if step.2.2.2 ≠ 0 then step.1 ++ [step.2] else step.1

/-- `SequenceMatcher.get_matching_blocks`: sorted non-adjacent matching
blocks, terminated by the sentinel `(len(a), len(b), 0)`. -/
def matchingBlocks (a b : Str) : List (Nat × Nat × Nat) :=
  coalesceBlocks (mblocksAux a b (a.length + b.length + 1) 0 a.length 0 b.length) ++
    [(a.length, b.length, 0)]

/-- Total number of matched characters `M`. -/
def blocksM (blocks : List (Nat × Nat × Nat)) : Nat :=
  (blocks.map (fun blk => blk.2.2)).sum

/-- `SequenceMatcher.ratio() = 2*M / (len(a)+len(b))` (and `1.0` for two
empty sequences, as in difflib's `_calculate_ratio`). -/
def ratioQ (a b : Str) : ℚ :=
  let t : ℕ := a.length + b.length
  if t = 0 then 1 else (2 * (blocksM (matchingBlocks a b)) : ℚ) / (t : ℚ)

/-- Python `int(round(x))`: round half to even. -/
def pyRound (x : ℚ) : ℤ :=
  let n := x.floor
  let r := x - (n : ℚ)
  if r < 1 / 2 then n
  else if 1 / 2 < r then n + 1
  else if n % 2 = 0 then n else n + 1

/-- `fuzz.ratio(a, b)`: the SequenceMatcher ratio as a rounded percent. -/
def fuzz_ratio (a b : Str) : ℤ := pyRound (100 * ratioQ a b)

/-- Block scan of fuzzywuzzy's `partial_ratio`: for every matching block
of `(shorter, longer)`, align `shorter` against the window of `longer`
starting where the block suggests, compute the SequenceMatcher ratio,
return `100` as soon as a ratio exceeds `.995`, and otherwise take the
rounded maximum of all scores. -/
def prScan (shorter longer : Str) : List (Nat × Nat × Nat) → List ℚ → ℤ
  | [], scores =>
    match (List.maximum scores : WithBot ℚ) with
    | ⊥ => 0
    | (q : ℚ) => pyRound (100 * q)
  | blk :: rest, scores =>
    let longStart := if blk.1 ≤ blk.2.1 then blk.2.1 - blk.1 else 0
    let longSubstr := (longer.drop longStart).take shorter.length
    let r := ratioQ shorter longSubstr
    if 199 / 200 < r then 100 else prScan shorter longer rest (r :: scores)

/-- `fuzz.partial_ratio(s1, s2)`: the shorter string scored against the
best-matching window of the longer one. -/
def fuzz_pr (s1 s2 : Str) : ℤ :=
  let p := if s1.length ≤ s2.length then (s1, s2) else (s2, s1)
  prScan p.1 p.2 (matchingBlocks p.1 p.2) []

/-! ## `analysis/merge_duplicates.py`: records and `get_similarity` -/

/-- A row of the references dataframe, restricted to the fields read by
`get_similarity`.  `Option.none` is a missing cell (NaN).  The title is
kept as a plain string because the source applies `.lower()` to it
directly (line 113), which presumes a string value. -/
structure BibRec where
  ID : String := ""
  author : Option String := none
  title : String := ""
  year : Option String := none
  journal : Option String := none
  volume : Option String := none
  number : Option String := none
  pages : Option String := none
  booktitle : Option String := none
deriving DecidableEq, Repr

/-- `utils.remove_accents`.  Modelled from the spec: the similarity
engine compares authors on a representation with "accents stripped"
(the `utils` module itself is not part of the source tree here); the
real implementation NFKD-normalizes and drops what cannot be encoded
as ASCII, so on ASCII input it is the identity. -/
def remove_accents (s : Str) : Str := s.filter (fun c => c.toNat < 128)

/-- `" ".join(last_names)` for a list of single-character name initials. -/
def joinSpace (cs : List Char) : Str := List.intercalate [' '] (cs.map (fun c => [c]))

/-- `format_authors_string` (merge_duplicates.py lines 50-67): lowercase,
strip accents, abbreviate first names to initials ("Webster, Jane" ->
"webster j"), drop the " and " separators, and remove every character
outside `[A-Za-z0-9, ]`. -/
def format_authors_string (authors : Option String) : Str :=
  let lowered := remove_accents (pyLower (pyStrO authors))
  let body := (splitAnd lowered).foldl
    (fun acc author =>
      if ',' ∈ author then
        let parts := charSplit ',' author
        let lastNames := ((charSplit ' ' (parts.getD 1 [])).filter
          (fun w => 0 < w.length)).filterMap List.head?
        acc ++ parts.getD 0 [] ++ [' '] ++ joinSpace lastNames ++ [' ']
      else acc ++ author ++ [' '])
    []
  cleanTitle (pyRstrip body)

/-- `df['pages'].split('-')[0]`: the page segment before the first dash. -/
def firstPage (o : Option String) : Str := (charSplit '-' (pyStrO o)).getD 0 []

/-- The pages component of the journal branch of `get_similarity`
(merge_duplicates.py lines 97-107): a missing pages cell on either side
scores 1; otherwise exact match, then first-page match, else 0. -/
def pages_sim (dfa dfb : BibRec) : ℚ :=
  if pyStrO dfa.pages = "nan".toList ∨ pyStrO dfb.pages = "nan".toList then 1
  else if pandasEq dfa.pages dfb.pages then 1
  else if firstPage dfa.pages = firstPage dfb.pages then 1
  else 0

/-- The fixed list of generic, non-distinctive title pairs
(merge_duplicates.py lines 113-120), compared after `.lower()`. -/
def genericTitlePairs : List (Str × Str) :=
  [("editorial".toList, "editorial".toList),
   ("editorial introduction".toList, "editorial introduction".toList),
   ("editorial notes".toList, "editorial notes".toList),
   ("editor\x27s comments".toList, "editor\x27s comments".toList),
   ("book reviews".toList, "book reviews".toList),
   ("editorial note".toList, "editorial note".toList)]

/-- `sum(similarities[g] * weights[g] for g in range(len(similarities)))`. -/
def dotQ : List ℚ → List ℚ → ℚ
  | s :: ss, w :: ws => s * w + dotQ ss ws
  | _, _ => 0

/-- `get_similarity(df_a, df_b)` (merge_duplicates.py lines 70-153).
The two rows are taken from one dataframe, so the membership test
`'booktitle' in df` holds for both rows or neither; for a two-record
frame it holds exactly when either record carries the field. -/
def get_similarity (dfa dfb : BibRec) : ℚ :=
  let author_similarity : ℚ :=
    (fuzz_pr (format_authors_string dfa.author) (format_authors_string dfb.author) : ℚ) / 100
  let title_similarity : ℚ :=
    (fuzz_ratio (cleanTitle (pyLower dfa.title.toList))
      (cleanTitle (pyLower dfb.title.toList)) : ℚ) / 100
  let year_similarity : ℚ :=
    (fuzz_pr (pyStrO dfa.year) (pyStrO dfb.year) : ℚ) / 100
  if pyStrO dfa.journal ≠ "nan".toList then
    let outlet_similarity : ℚ :=
      (fuzz_ratio (cleanOutlet (pyLower (pyStrO dfa.journal)))
        (cleanOutlet (pyLower (pyStrO dfb.journal))) : ℚ) / 100
    let volume_similarity : ℚ := if pandasEq dfa.volume dfb.volume then 1 else 0
    let number_similarity : ℚ := if pandasEq dfa.number dfb.number then 1 else 0
    let weights : List ℚ :=
      if (pyLower dfa.title.toList, pyLower dfb.title.toList) ∈ genericTitlePairs then
        [0.175, 0, 0.175, 0.175, 0.175, 0.175, 0.125]
      else
        [0.25, 0.3, 0.13, 0.2, 0.05, 0.05, 0.02]
    dotQ [author_similarity, title_similarity, year_similarity, outlet_similarity,
          volume_similarity, number_similarity, pages_sim dfa dfb] weights
  else if dfa.booktitle.isSome || dfb.booktitle.isSome then
    let outlet_similarity : ℚ :=
      (fuzz_ratio (cleanOutlet (pyLower (pyStrO dfa.booktitle)))
        (cleanOutlet (pyLower (pyStrO dfb.booktitle))) : ℚ) / 100
    dotQ [author_similarity, title_similarity, year_similarity, outlet_similarity]
      [0.15, 0.75, 0.05, 0.05]
  else 0

/-- Record A of the spec's similarity example. -/
def recEditorialA : BibRec :=
  { author := some "Rai, Arun", title := "EDITORIAL", year := some "2020",
    journal := some "MIS Quarterly", volume := some "45", number := some "1" }

/-- Record B of the spec's similarity example: as A, but with author
`"Rai, A"` and journal `"MISQ"`. -/
def recEditorialB : BibRec :=
  { author := some "Rai, A", title := "EDITORIAL", year := some "2020",
    journal := some "MISQ", volume := some "45", number := some "1" }

/-! ## Claims C1, C2, C10 about `get_similarity` -/

/-- Claim C1, counterexample: on the spec's concrete pair of records the
similarity function of the source tree returns `0.90725`, not
approximately `0.8541`: the computed value exceeds the claimed one by
more than `1/20`.  (The `0.8541` figure matches the later-generation
`Record.get_record_similarity`, which is not part of the source tree
modelled here.) -/
theorem get_similarity_editorial_pair_not_8541 :
    get_similarity recEditorialA recEditorialB = 3629 / 4000 ∧
    8541 / 10000 + 1 / 20 < get_similarity recEditorialA recEditorialB := by
  decide

/-- Claim C1, amended: on the concrete pair the similarity is exactly
`0.90725`: author, year, volume and number components score 1, the
missing pages cells score 1, the journal component scores `0.47`
(`fuzz.ratio("mis quarterly", "misq") = 47`), and the generic-title
weight vector `[0.175, 0, 0.175, 0.175, 0.175, 0.175, 0.125]` applies
because both lowered titles are "editorial". -/
theorem get_similarity_editorial_pair_value :
    get_similarity recEditorialA recEditorialB = 3629 / 4000 := by decide

/-- A record with a journal (and no booktitle). -/
def recWithJournal : BibRec :=
  { author := some "Smith, Jane", title := "The title", year := some "2000",
    journal := some "J", volume := some "1", number := some "1", pages := some "1" }

/-- A record with a booktitle and no journal, otherwise fuzzily equal
to `recWithJournal`. -/
def recWithBooktitle : BibRec :=
  { author := some "Smith, Jane", title := "The title", year := some "2000",
    booktitle := some "J" }

/-- Claim C2, counterexample: `get_similarity` is not symmetric, and the
branch choice depends only on the first record's journal field: with a
journal on one side and a booktitle on the other, one order takes the
journal branch (score `0.7`) and the swapped order takes the booktitle
branch (score `0.95`). -/
theorem get_similarity_not_symmetric :
    get_similarity recWithJournal recWithBooktitle = 7 / 10 ∧
    get_similarity recWithBooktitle recWithJournal = 19 / 20 ∧
    get_similarity recWithJournal recWithBooktitle ≠
      get_similarity recWithBooktitle recWithJournal := by
  decide

/-- `pandasEq` is symmetric. -/
theorem pandasEq_comm (x y : Option String) : pandasEq x y = pandasEq y x := by
  cases x <;> cases y <;> simp [pandasEq, decide_eq_decide, eq_comm]

/-- The pages component is symmetric in the two records. -/
theorem pages_sim_comm (a b : BibRec) : pages_sim a b = pages_sim b a := by
  unfold pages_sim
  by_cases h1 : pyStrO a.pages = "nan".toList ∨ pyStrO b.pages = "nan".toList
  · rw [if_pos h1, if_pos (Or.symm h1)]
  · rw [if_neg h1, if_neg (fun h => h1 (Or.symm h))]
    rw [pandasEq_comm a.pages b.pages]
    by_cases h2 : pandasEq b.pages a.pages = true
    · rw [if_pos h2, if_pos h2]
    · rw [if_neg h2, if_neg h2]
      by_cases h3 : firstPage a.pages = firstPage b.pages
      · rw [if_pos h3, if_pos (Eq.symm h3)]
      · rw [if_neg h3, if_neg (fun h => h3 (Eq.symm h))]

/-- Claim C2, amended: `get_similarity` is symmetric whenever the two
records agree on every fuzzily compared field (author, title, year,
journal, booktitle); volume, number and pages may differ arbitrarily.
Full symmetry fails (see the counterexample) because the
journal-versus-booktitle branch is chosen from the first record's
journal field alone. -/
theorem get_similarity_symm_of_eq_fuzzy_fields :
    ∀ a b : BibRec, a.author = b.author → a.title = b.title → a.year = b.year →
      a.journal = b.journal → a.booktitle = b.booktitle →
      get_similarity a b = get_similarity b a := by
  intro a b ha ht hy hj hb
  simp only [get_similarity, ha, ht, hy, hj, hb, pandasEq_comm a.volume b.volume,
    pandasEq_comm a.number b.number, pages_sim_comm a b, Bool.or_comm]

/-- Witness for the amended C2 theorem: two concrete records equal in
the fuzzy fields but differing in volume, number and pages. -/
theorem get_similarity_symm_witness :
    get_similarity recWithJournal
        { recWithJournal with volume := some "2", number := none, pages := some "9" } =
      get_similarity
        { recWithJournal with volume := some "2", number := none, pages := some "9" }
        recWithJournal :=
  get_similarity_symm_of_eq_fuzzy_fields _ _ rfl rfl rfl rfl rfl

/-- Claim C10: in the journal branch, a missing pages cell on either
side makes the pages component a full match (1); the component is 0
exactly when both sides carry pages and both the full page strings and
the first pages (the segment before the first dash) differ. -/
theorem pages_sim_spec :
    ∀ a b : BibRec,
      (pyStrO a.pages = "nan".toList ∨ pyStrO b.pages = "nan".toList →
        pages_sim a b = 1) ∧
      (pages_sim a b = 0 ↔
        pyStrO a.pages ≠ "nan".toList ∧ pyStrO b.pages ≠ "nan".toList ∧
        pandasEq a.pages b.pages = false ∧ firstPage a.pages ≠ firstPage b.pages) := by
  intro a b
  constructor
  · intro h
    unfold pages_sim
    rw [if_pos h]
  · unfold pages_sim
    split_ifs with h1 h2 h3
    · refine iff_of_false (by norm_num) ?_
      rintro ⟨ha, hb, -, -⟩
      rcases h1 with h | h
      · exact ha h
      · exact hb h
    · refine iff_of_false (by norm_num) ?_
      rintro ⟨-, -, hc, -⟩
      rw [h2] at hc
      cases hc
    · refine iff_of_false (by norm_num) ?_
      rintro ⟨-, -, -, hd⟩
      exact hd h3
    · refine iff_of_true rfl ?_
      push_neg at h1
      exact ⟨h1.1, h1.2, Bool.eq_false_iff.mpr h2, h3⟩

/-- Witness for C10: one-sided missing pages scores 1; two differing
page ranges with different first pages score 0. -/
theorem pages_sim_spec_witness :
    pages_sim { pages := none } { pages := some "1--3" } = 1 ∧
    pages_sim { pages := some "1--3" } { pages := some "4--6" } = 0 :=
  ⟨(pages_sim_spec _ _).1 (Or.inl rfl),
   (pages_sim_spec _ _).2.mpr (by refine ⟨by decide, by decide, by decide, by decide⟩)⟩

/-! ## `calculate_similarities` (merge_duplicates.py lines 185-213) -/

/-- `np.zeros([n, n])`. -/
def zerosMatrix (n : Nat) : List (List ℚ) := List.replicate n (List.replicate n 0)

/-- A similarity matrix: row-major list of rows. -/
abbrev SimMatrix := List (List ℚ)

/-- `SimilarityArray[i, j]` (0, the `np.zeros` fill, when out of range). -/
def cell (m : SimMatrix) (i j : Nat) : ℚ := (m.getD i []).getD j 0

/-- The matrix-fill loop of `calculate_similarities` (lines 188-195):
`for base_entry_i in range(1, n): for comparison_entry_i in range(1, n):`
compute `get_similarity` for cells with `base > comparison` that are
not pre-marked `-1`; every other cell is left unchanged.  Note both
ranges start at 1. -/
def calc_fill (refs : List BibRec) (m : SimMatrix) : SimMatrix :=
  let n := refs.length
  m.enum.map fun p =>
    p.2.enum.map fun q =>
      if 1 ≤ p.1 ∧ p.1 < n ∧ 1 ≤ q.1 ∧ q.1 < n ∧ q.1 < p.1 ∧ q.2 ≠ -1 then
        get_similarity (refs.getD p.1 {}) (refs.getD q.1 {})
      else q.2

/-- Claim C5 (code bug): the fill loops range over `1..n-1` for both
indices, so every pair involving record 0 is omitted.  With two
identical records the only unordered pair of distinct records is
(1, 0); its similarity is 1, yet the filled matrix stays all zero.
With three identical records only the cell (2, 1) is computed. -/
theorem calc_fill_omits_record_zero :
    calc_fill [recWithJournal, recWithJournal] (zerosMatrix 2) = zerosMatrix 2 ∧
    get_similarity recWithJournal recWithJournal = 1 ∧
    calc_fill [recWithJournal, recWithJournal, recWithJournal] (zerosMatrix 3) =
      [[0, 0, 0], [0, 0, 0], [0, 1, 0]] := by
  decide

/-- A worklist tuple `[id_a, id_b, similarity, status]` as appended by
`calculate_similarities` (merge_duplicates.py lines 208-211). -/
abbrev MergeTup := String × String × ℚ × String

/-- `min_similarity = 0.7` (merge_duplicates.py line 376). -/
def merge_bib_min_similarity : ℚ := 0.7

/-- `auto_threshold = 0.95` (merge_duplicates.py line 404). -/
def merge_bib_auto_threshold : ℚ := 0.95

/-- The coordinates produced by
`np.where(SimilarityArray == np.amax(SimilarityArray))`, in row-major
order. -/
def maxCoords (m : SimMatrix) (mx : ℚ) : List (Nat × Nat) :=
  (List.range m.length).flatMap fun i =>
    (List.range ((m.getD i []).length)).filterMap fun j =>
      if cell m i j = mx then some (i, j) else none

/-- `SimilarityArray[cord] = 0` for every coordinate in `coords`. -/
def zeroCoords (m : SimMatrix) (coords : List (Nat × Nat)) : SimMatrix :=
  (List.range m.length).map fun i =>
    (List.range ((m.getD i []).length)).map fun j =>
      if (i, j) ∈ coords then 0 else cell m i j

/-- The `while True` extraction loop of `calculate_similarities`
(merge_duplicates.py lines 197-213): take the global maximum of the
matrix; stop when it falls below `minSim`; otherwise queue a tuple
`(id_a, id_b, max, "not_processed")` for every coordinate tied at the
maximum, zero those cells, and repeat.  `ids` is the `ID` column of the
references dataframe.  `fuel` bounds the number of iterations (the
source loop is partial: with `minSim ≤ 0` it never terminates);
`none` is returned when the fuel runs out or the matrix is empty
(`np.amax` of an empty array raises). -/
def extractLoop (minSim : ℚ) (ids : List String) :
    Nat → SimMatrix → Option (List MergeTup × SimMatrix)
  | 0, _ => none
  | fuel + 1, m =>
    match ((m.flatten).maximum : Option ℚ) with
    | none => none
    | some mx =>
      if mx < minSim then some ([], m)
      else
        match extractLoop minSim ids fuel (zeroCoords m (maxCoords m mx)) with
        | none => none
        | some (rest, mf) =>
          some
            ((maxCoords m mx).map
                (fun c => (ids.getD c.1 "", ids.getD c.2 "", mx, "not_processed")) ++
              rest, mf)

/-- `calculate_similarities(SimilarityArray, references, min_similarity)`
(merge_duplicates.py lines 185-213): fill the matrix, then run the
extraction loop. -/
def calculate_similarities (refs : List BibRec) (m : SimMatrix) (minSim : ℚ)
    (fuel : Nat) : Option (SimMatrix × List MergeTup) :=
  let filled := calc_fill refs m
  match extractLoop minSim (refs.map (fun r => r.ID)) fuel filled with
  | none => none
  | some (tuples, mf) => some (mf, tuples)

/-! ### Invariants of the extraction loop (claim C3) -/

theorem cell_mem_flatten {m : SimMatrix} {i j : Nat} (hi : i < m.length)
    (hj : j < (m.getD i []).length) : cell m i j ∈ m.flatten := by
  rw [List.mem_flatten]
  refine ⟨m.getD i [], ?_, ?_⟩
  · rw [List.getD_eq_getElem?_getD, List.getElem?_eq_getElem hi]
    exact List.getElem_mem hi
  · rw [cell, List.getD_eq_getElem?_getD (m.getD i []), List.getElem?_eq_getElem hj]
    exact List.getElem_mem hj

theorem mem_maxCoords {m : SimMatrix} {mx : ℚ} {c : Nat × Nat} :
    c ∈ maxCoords m mx ↔
      c.1 < m.length ∧ c.2 < (m.getD c.1 []).length ∧ cell m c.1 c.2 = mx := by
  unfold maxCoords
  rw [List.mem_flatMap]
  constructor
  · rintro ⟨i, hi, hc⟩
    rw [List.mem_filterMap] at hc
    obtain ⟨j, hj, hcj⟩ := hc
    rw [List.mem_range] at hi hj
    by_cases h : cell m i j = mx
    · rw [if_pos h] at hcj
      cases hcj
      exact ⟨hi, hj, h⟩
    · rw [if_neg h] at hcj
      cases hcj
  · rintro ⟨h1, h2, h3⟩
    refine ⟨c.1, List.mem_range.mpr h1, ?_⟩
    rw [List.mem_filterMap]
    exact ⟨c.2, List.mem_range.mpr h2, by rw [if_pos h3]⟩

theorem maxCoords_nodup (m : SimMatrix) (mx : ℚ) : (maxCoords m mx).Nodup := by
  unfold maxCoords
  rw [List.nodup_flatMap]
  constructor
  · intro i _
    refine List.Nodup.filterMap ?_ (List.nodup_range _)
    intro j j' b hj hj'
    by_cases h : cell m i j = mx
    · rw [if_pos h] at hj
      cases hj
      by_cases h' : cell m i j' = mx
      · rw [if_pos h'] at hj'
        cases hj'
        rfl
      · rw [if_neg h'] at hj'
        cases hj'
    · rw [if_neg h] at hj
      cases hj
  · refine List.Pairwise.imp ?_ (List.nodup_range m.length)
    intro i i' hne c hc hc'
    rw [List.mem_filterMap] at hc hc'
    obtain ⟨j, -, hj⟩ := hc
    obtain ⟨j', -, hj'⟩ := hc'
    by_cases h : cell m i j = mx
    · rw [if_pos h] at hj
      cases hj
      by_cases h' : cell m i' j' = mx
      · rw [if_pos h'] at hj'
        cases hj'
        exact hne rfl
      · rw [if_neg h'] at hj'
        cases hj'
    · rw [if_neg h] at hj
      cases hj

theorem zeroCoords_length (m : SimMatrix) (cs : List (Nat × Nat)) :
    (zeroCoords m cs).length = m.length := by
  simp [zeroCoords]

theorem zeroCoords_getD (m : SimMatrix) (cs : List (Nat × Nat)) {i : Nat}
    (hi : i < m.length) :
    (zeroCoords m cs).getD i [] =
      (List.range ((m.getD i []).length)).map
        (fun j => if (i, j) ∈ cs then 0 else cell m i j) := by
  rw [zeroCoords, List.getD_eq_getElem?_getD, List.getElem?_map,
    List.getElem?_range (by simpa using hi)]
  rfl

theorem cell_zeroCoords_mem (m : SimMatrix) (cs : List (Nat × Nat)) {i j : Nat}
    (hi : i < m.length) (hj : j < (m.getD i []).length) (hmem : (i, j) ∈ cs) :
    cell (zeroCoords m cs) i j = 0 := by
  rw [cell, zeroCoords_getD m cs hi, List.getD_eq_getElem?_getD, List.getElem?_map,
    List.getElem?_range (by simpa using hj)]
  simp [hmem]

theorem cell_zeroCoords_not_mem (m : SimMatrix) (cs : List (Nat × Nat)) {i j : Nat}
    (hmem : (i, j) ∉ cs) : cell (zeroCoords m cs) i j = cell m i j := by
  by_cases hi : i < m.length
  · by_cases hj : j < (m.getD i []).length
    · rw [cell, zeroCoords_getD m cs hi, List.getD_eq_getElem?_getD, List.getElem?_map,
        List.getElem?_range (by simpa using hj)]
      simp [hmem]
    · rw [cell, zeroCoords_getD m cs hi, List.getD_eq_getElem?_getD, List.getElem?_map,
        List.getElem?_eq_none (by simpa using hj), cell,
        List.getD_eq_getElem?_getD (m.getD i []) j,
        List.getElem?_eq_none (by simpa using hj)]
      rfl
  · have h1 : (zeroCoords m cs)[i]? = none :=
      List.getElem?_eq_none (by rw [zeroCoords_length]; omega)
    have h2 : m[i]? = none := List.getElem?_eq_none (by omega)
    rw [cell, cell, List.getD_eq_getElem?_getD (zeroCoords m cs) i,
      List.getD_eq_getElem?_getD m i, h1, h2]

theorem zeroCoords_flatten_vals {m : SimMatrix} {cs : List (Nat × Nat)} {v : ℚ}
    (hv : v ∈ (zeroCoords m cs).flatten) : v = 0 ∨ v ∈ m.flatten := by
  rw [List.mem_flatten] at hv
  obtain ⟨row, hrow, hvrow⟩ := hv
  rw [zeroCoords, List.mem_map] at hrow
  obtain ⟨i, hi, hrowi⟩ := hrow
  rw [List.mem_range] at hi
  subst hrowi
  rw [List.mem_map] at hvrow
  obtain ⟨j, hj, hvj⟩ := hvrow
  rw [List.mem_range] at hj
  by_cases h : (i, j) ∈ cs
  · rw [if_pos h] at hvj
    exact Or.inl hvj.symm
  · rw [if_neg h] at hvj
    exact Or.inr (hvj ▸ cell_mem_flatten hi hj)

theorem zeroCoords_row_length (m : SimMatrix) (cs : List (Nat × Nat)) {i : Nat}
    (hi : i < m.length) :
    ((zeroCoords m cs).getD i []).length = (m.getD i []).length := by
  rw [zeroCoords_getD m cs hi]
  simp

theorem chain'_ge_of_const {l : List ℚ} {c : ℚ} (h : ∀ x ∈ l, x = c) :
    List.Chain' (fun x y => y ≤ x) l := by
  induction l with
  | nil => exact List.chain'_nil
  | cons a l2 ih =>
    cases l2 with
    | nil => simp
    | cons b l3 =>
      rw [List.chain'_cons]
      constructor
      · rw [h a (by simp), h b (by simp)]
      · exact ih (fun x hx => h x (List.mem_cons_of_mem a hx))

theorem extractLoop_invariant {t : ℚ} {ids : List String} (ht : 0 < t) :
    ∀ (fuel : Nat) (m : SimMatrix) (q : List MergeTup) (mf : SimMatrix),
      extractLoop t ids fuel m = some (q, mf) →
      ∃ cs : List (Nat × Nat),
        q = cs.map (fun c => (ids.getD c.1 "", ids.getD c.2 "", cell m c.1 c.2,
          "not_processed")) ∧
        cs.Nodup ∧
        (∀ c ∈ cs, c.1 < m.length ∧ c.2 < (m.getD c.1 []).length ∧
          t ≤ cell m c.1 c.2) ∧
        List.Chain' (fun x y => y ≤ x) (cs.map (fun c => cell m c.1 c.2)) ∧
        (∀ v ∈ mf.flatten, v < t) := by
  intro fuel
  induction fuel with
  | zero =>
    intro m q mf h
    simp [extractLoop] at h
  | succ fuel ih =>
    intro m q mf h
    rw [extractLoop] at h
    split at h
    · cases h
    · rename_i mx hmax
      have hvals : ∀ v ∈ m.flatten, v ≤ mx := fun v hv =>
        List.le_maximum_of_mem hv hmax
      by_cases hlt : mx < t
      · rw [if_pos hlt] at h
        cases h
        refine ⟨[], rfl, List.nodup_nil, by simp, by simp, ?_⟩
        intro v hv
        exact lt_of_le_of_lt (hvals v hv) hlt
      · rw [if_neg hlt] at h
        have hmxt : t ≤ mx := le_of_not_lt hlt
        have hmx0 : (0 : ℚ) ≤ mx := le_trans (le_of_lt ht) hmxt
        split at h
        · cases h
        · rename_i rest mf' hrec
          cases h
          obtain ⟨cs', hq', hnd', hrange', hchain', hfin'⟩ := ih _ _ _ hrec
          -- facts about the zeroed matrix
          have hdim : (zeroCoords m (maxCoords m mx)).length = m.length :=
            zeroCoords_length m _
          have hrangem : ∀ c ∈ cs', c.1 < m.length ∧ c.2 < (m.getD c.1 []).length := by
            intro c hc
            obtain ⟨h1, h2, -⟩ := hrange' c hc
            rw [hdim] at h1
            rw [zeroCoords_row_length m _ h1] at h2
            exact ⟨h1, h2⟩
          have hnotin : ∀ c ∈ cs', c ∉ maxCoords m mx := by
            intro c hc hmem
            obtain ⟨h1, h2, h3⟩ := hrange' c hc
            rw [hdim] at h1
            rw [zeroCoords_row_length m _ h1] at h2
            have := cell_zeroCoords_mem m (maxCoords m mx) h1 h2
              (by rcases c with ⟨i, j⟩; exact hmem)
            rw [this] at h3
            exact absurd (lt_of_lt_of_le ht h3) (lt_irrefl 0)
          have hcells : ∀ c ∈ cs',
              cell (zeroCoords m (maxCoords m mx)) c.1 c.2 = cell m c.1 c.2 := by
            intro c hc
            rcases c with ⟨i, j⟩
            exact cell_zeroCoords_not_mem m _ (hnotin _ hc)
          have hzvals : ∀ v ∈ (zeroCoords m (maxCoords m mx)).flatten, v ≤ mx := by
            intro v hv
            rcases zeroCoords_flatten_vals hv with h0 | hm
            · rw [h0]; exact hmx0
            · exact hvals v hm
          refine ⟨maxCoords m mx ++ cs', ?_, ?_, ?_, ?_, hfin'⟩
          · rw [List.map_append]
            congr 1
            · refine List.map_congr_left ?_
              intro c hc
              rw [(mem_maxCoords.mp hc).2.2]
            · rw [hq']
              refine List.map_congr_left ?_
              intro c hc
              rw [hcells c hc]
          · refine List.Nodup.append (maxCoords_nodup m mx) hnd' ?_
            intro c hc hc'
            exact hnotin c hc' hc
          · intro c hc
            rcases List.mem_append.mp hc with hc | hc
            · obtain ⟨h1, h2, h3⟩ := mem_maxCoords.mp hc
              exact ⟨h1, h2, h3 ▸ hmxt⟩
            · obtain ⟨h1, h2⟩ := hrangem c hc
              obtain ⟨-, -, h3⟩ := hrange' c hc
              rw [hcells c hc] at h3
              exact ⟨h1, h2, h3⟩
          · rw [List.map_append]
            refine List.Chain'.append ?_ ?_ ?_
            · refine @chain'_ge_of_const _ mx ?_
              intro x hx
              rw [List.mem_map] at hx
              obtain ⟨c, hc, hcx⟩ := hx
              rw [← hcx, (mem_maxCoords.mp hc).2.2]
            · have : cs'.map (fun c => cell m c.1 c.2) =
                  cs'.map (fun c => cell (zeroCoords m (maxCoords m mx)) c.1 c.2) := by
                refine List.map_congr_left ?_
                intro c hc
                rw [hcells c hc]
              rw [this]
              exact hchain'
            · intro x hx y hy
              obtain ⟨hne, hxval⟩ := List.mem_getLast?_eq_getLast hx
              have hxmem : x ∈ (maxCoords m mx).map (fun c => cell m c.1 c.2) := by
                rw [hxval]; exact List.getLast_mem _
              rw [List.mem_map] at hxmem
              obtain ⟨c, hc, hcx⟩ := hxmem
              have hxeq : x = mx := by rw [← hcx, (mem_maxCoords.mp hc).2.2]
              have hymem : y ∈ cs'.map (fun c => cell m c.1 c.2) :=
                List.mem_of_mem_head? hy
              rw [List.mem_map] at hymem
              obtain ⟨c', hc', hcy⟩ := hymem
              have : y ≤ mx := by
                rw [← hcy, ← hcells c' hc']
                obtain ⟨h1, h2⟩ := hrangem c' hc'
                refine hzvals _ (cell_mem_flatten ?_ ?_)
                · rw [hdim]; exact h1
                · rw [zeroCoords_row_length m _ h1]; exact h2
              rw [hxeq]
              exact this

/-- The unordered pair of two IDs, as a sorted tuple. -/
def unorderedPair (x y : String) : String × String :=
  if x ≤ y then (x, y) else (y, x)

theorem unorderedPair_eq {a b c d : String}
    (h : unorderedPair a b = unorderedPair c d) :
    (a = c ∧ b = d) ∨ (a = d ∧ b = c) := by
  unfold unorderedPair at h
  split_ifs at h <;> injection h with h1 h2 <;>
    first
      | exact Or.inl ⟨h1, h2⟩
      | exact Or.inr ⟨h1, h2⟩
      | exact Or.inl ⟨h2, h1⟩
      | exact Or.inr ⟨h2, h1⟩

/-- Decidable check that every cell on or above the diagonal is below
`t` (the filled matrix is strictly lower-triangular: the fill loop only
writes cells with `base > comparison`). -/
def upperTriBelow (m : SimMatrix) (t : ℚ) : Bool :=
  (List.range m.length).all fun i =>
    (List.range ((m.getD i []).length)).all fun j =>
      decide (i ≤ j → cell m i j < t)

theorem upperTriBelow_spec {m : SimMatrix} {t : ℚ} (h : upperTriBelow m t = true)
    {i j : Nat} (hi : i < m.length) (hj : j < (m.getD i []).length) (hij : i ≤ j) :
    cell m i j < t := by
  rw [upperTriBelow, List.all_eq_true] at h
  have hrow := h i (List.mem_range.mpr hi)
  rw [List.all_eq_true] at hrow
  have := hrow j (List.mem_range.mpr hj)
  rw [decide_eq_true_iff] at this
  exact this hij

/-- Decidable check that the matrix dimensions stay within the length
of the `ID` column. -/
def dimsWithin (m : SimMatrix) (n : Nat) : Bool :=
  decide (m.length ≤ n) &&
    (List.range m.length).all fun i => decide ((m.getD i []).length ≤ n)

theorem nodup_getD_inj {ids : List String} (h : ids.Nodup) {i j : Nat}
    (hi : i < ids.length) (hj : j < ids.length)
    (he : ids.getD i "" = ids.getD j "") : i = j := by
  rw [List.getD_eq_getElem?_getD, List.getD_eq_getElem?_getD,
    List.getElem?_eq_getElem hi, List.getElem?_eq_getElem hj] at he
  simp only [Option.getD_some] at he
  exact (List.Nodup.getElem_inj_iff h).mp he

/-- Claim C3: for a strictly-lower-triangular similarity matrix (as
produced by the fill loop) and a positive minimum-similarity threshold,
the extraction loop queues tuples whose similarities are in
non-increasing order and all at least the threshold, with status
`"not_processed"`; no unordered pair of (distinct) record IDs is queued
twice; the loop stops exactly when every remaining matrix value is
below the threshold; and the threshold default set by `merge_bib` is
0.7. -/
theorem extractLoop_spec (t : ℚ) (ids : List String) (fuel : Nat) (m : SimMatrix)
    (q : List MergeTup) (mf : SimMatrix)
    (ht : 0 < t) (hids : ids.Nodup)
    (htri : upperTriBelow m t = true)
    (hdims : dimsWithin m ids.length = true)
    (hrun : extractLoop t ids fuel m = some (q, mf)) :
    (∀ tup ∈ q, t ≤ tup.2.2.1 ∧ tup.2.2.2 = "not_processed") ∧
    List.Chain' (fun x y => y ≤ x) (q.map (fun tup => tup.2.2.1)) ∧
    (q.map (fun tup => unorderedPair tup.1 tup.2.1)).Nodup ∧
    (∀ v ∈ mf.flatten, v < t) ∧
    merge_bib_min_similarity = 7 / 10 := by
  obtain ⟨cs, hq, hnd, hrange, hchain, hfin⟩ := extractLoop_invariant ht fuel m q mf hrun
  rw [dimsWithin, Bool.and_eq_true, decide_eq_true_iff, List.all_eq_true] at hdims
  obtain ⟨hlen, hrows⟩ := hdims
  -- every queued coordinate is strictly below the diagonal and within the ID column
  have hlow : ∀ c ∈ cs, c.2 < c.1 ∧ c.1 < ids.length ∧ c.2 < ids.length := by
    intro c hc
    obtain ⟨h1, h2, h3⟩ := hrange c hc
    have hrowlen : (m.getD c.1 []).length ≤ ids.length := by
      have := hrows c.1 (List.mem_range.mpr h1)
      exact decide_eq_true_iff.mp this
    refine ⟨?_, lt_of_lt_of_le h1 hlen, lt_of_lt_of_le h2 hrowlen⟩
    by_contra hle
    exact absurd (lt_of_le_of_lt h3 (upperTriBelow_spec htri h1 h2 (le_of_not_lt hle)))
      (lt_irrefl t)
  refine ⟨?_, ?_, ?_, hfin, rfl⟩
  · intro tup htup
    rw [hq, List.mem_map] at htup
    obtain ⟨c, hc, hct⟩ := htup
    rw [← hct]
    exact ⟨(hrange c hc).2.2, rfl⟩
  · rw [hq, List.map_map]
    exact hchain
  · rw [hq, List.map_map]
    refine List.Nodup.map_on ?_ hnd
    intro c hc c' hc' he
    obtain ⟨hlt, hi, hj⟩ := hlow c hc
    obtain ⟨hlt', hi', hj'⟩ := hlow c' hc'
    rcases unorderedPair_eq he with ⟨h1, h2⟩ | ⟨h1, h2⟩
    · have e1 := nodup_getD_inj hids hi hi' h1
      have e2 := nodup_getD_inj hids hj hj' h2
      rcases c with ⟨i, j⟩
      rcases c' with ⟨i', j'⟩
      simp only at e1 e2
      rw [e1, e2]
    · have e1 := nodup_getD_inj hids hi hj' h1
      have e2 := nodup_getD_inj hids hj hi' h2
      rcases c with ⟨i, j⟩
      rcases c' with ⟨i', j'⟩
      simp only at e1 e2 hlt hlt'
      omega

/-- A concrete 3x3 worklist example for the extraction loop. -/
def exampleSimMatrix : SimMatrix := [[0, 0, 0], [9/10, 0, 0], [4/5, 3/4, 0]]

/-- The tuples extracted from `exampleSimMatrix` at threshold 0.7. -/
def exampleTuples : List MergeTup :=
  [("b", "a", 9/10, "not_processed"),
   ("c", "a", 4/5, "not_processed"),
   ("c", "b", 3/4, "not_processed")]

/-- Witness for C3: a concrete run of the extraction loop satisfying
every hypothesis, together with the conclusions of `extractLoop_spec`
at that run. -/
theorem extractLoop_spec_witness :
    (∀ tup ∈ exampleTuples, (7 : ℚ)/10 ≤ tup.2.2.1 ∧ tup.2.2.2 = "not_processed") ∧
    List.Chain' (fun x y => y ≤ x) (exampleTuples.map (fun tup => tup.2.2.1)) ∧
    (exampleTuples.map (fun tup => unorderedPair tup.1 tup.2.1)).Nodup ∧
    (∀ v ∈ ([[0, 0, 0], [0, 0, 0], [0, 0, 0]] : SimMatrix).flatten, v < 7/10) ∧
    merge_bib_min_similarity = 7 / 10 :=
  extractLoop_spec (7/10) ["a", "b", "c"] 5 exampleSimMatrix exampleTuples
    [[0, 0, 0], [0, 0, 0], [0, 0, 0]]
    (by decide) (by decide) (by decide) (by decide) (by decide)

/-! ## `auto_merge_entries` (merge_duplicates.py lines 239-296), claim C4 -/

/-- A row of the references dataframe as used by the auto-merge step:
the citation key and the record's hash_ids.  The source stores hash_ids
as a comma-joined string and merges them through a Python `set` (whose
join order is unspecified); the set is modelled directly as a
`Finset`. -/
structure RefEntry where
  ID : String
  hash_id : Finset String
deriving DecidableEq

/-- `references.drop(references[references['ID'] == citation_key].index)`
(merge_duplicates.py lines 37-47). -/
def remove_entry (references : List RefEntry) (citation_key : String) : List RefEntry :=
  references.filter (fun r => ¬ r.ID = citation_key)

/-- `references.loc[references['ID'] == cid]['hash_id'].values[0]`:
the hash set of the first row with the given ID; `none` models the
`IndexError` raised when no row matches. -/
def lookupHash (references : List RefEntry) (cid : String) : Option (Finset String) :=
  (references.find? (fun r => r.ID = cid)).map (fun r => r.hash_id)

/-- `get_combined_hash_id_list` (lines 216-236): the set union of the
two entries' hash_ids; `none` models the `IndexError` when either ID
has already been removed from the references. -/
def get_combined_hash_id_list (references : List RefEntry) (id1 id2 : String) :
    Option (Finset String) :=
  match lookupHash references id1, lookupHash references id2 with
  | some h1, some h2 => some (h1 ∪ h2)
  | _, _ => none

/-- `references.at[references['ID'] == cid, 'hash_id'] = combined`. -/
def set_hash (references : List RefEntry) (cid : String) (h : Finset String) :
    List RefEntry :=
  references.map (fun r => if r.ID = cid then { r with hash_id := h } else r)

/-- `tuples[i][0][-1:].isnumeric()`: whether the last character of the
ID is a digit (`False` for the empty string; the IDs in scope are
ASCII, where `isnumeric` coincides with `isDigit`). -/
def lastCharNumeric (s : String) : Bool :=
  match s.toList.getLast? with
  | some c => c.isDigit
  | none => false

/-- One iteration of the `auto_merge_entries` loop (lines 241-294) on a
single worklist tuple, returning the updated references and the updated
tuple.  `propagated` models `utils.propagated_citation_key` (an
external lookup of whether a citation key has been propagated to other
files).  The guard on lines 262-263 is kept exactly as written in the
source: `tuples[i][0][-1:].isnumeric() and not
tuples[i][0][-1:].isnumeric()` tests the same value twice and is
therefore never true, so when neither key is propagated the second
entry's ID is always the one kept. -/
def auto_merge_step (propagated : String → Bool) (threshold : ℚ)
    (references : List RefEntry) (tup : MergeTup) : List RefEntry × MergeTup :=
  if tup.2.2.1 < threshold then (references, tup)
  else
    let first_propagated := propagated tup.1
    let second_propagated := propagated tup.2.1
    if first_propagated ∧ second_propagated then
      (references, (tup.1, tup.2.1, tup.2.2.1, "propagation_problem"))
    else
      let updated :=
        if ¬ first_propagated ∧ ¬ second_propagated then
          if lastCharNumeric tup.1 ∧ ¬ lastCharNumeric tup.1 then
            (true, second_propagated)
          else (first_propagated, true)
        else (first_propagated, second_propagated)
      if updated.1 then
        match get_combined_hash_id_list references tup.1 tup.2.1 with
        | none => (references, (tup.1, tup.2.1, tup.2.2.1, "skipped"))
        | some combined =>
          (remove_entry (set_hash references tup.1 combined) tup.2.1,
            (tup.1, tup.2.1, tup.2.2.1, "merged"))
      else
        match get_combined_hash_id_list references tup.1 tup.2.1 with
        | none => (references, (tup.1, tup.2.1, tup.2.2.1, "skipped"))
        | some combined =>
          (remove_entry (set_hash references tup.2.1 combined) tup.1,
            (tup.1, tup.2.1, tup.2.2.1, "merged"))

/-- `auto_merge_entries(references, tuples, threshold)` (lines 239-296). -/
def auto_merge_entries (propagated : String → Bool) (references : List RefEntry)
    (tuples : List MergeTup) (threshold : ℚ) : List RefEntry × List MergeTup :=
  tuples.foldl
    (fun acc tup =>
      let step := auto_merge_step propagated threshold acc.1 tup
      (step.1, acc.2 ++ [step.2]))
    (references, [])

/-- Claim C4 (code bug): with neither ID propagated and a pair above
the auto-merge threshold, the surviving record is always the SECOND
tuple entry, even when the first ID is the canonical one
("Rai2020") and the second carries a disambiguation letter
("Rai2020a"): the guard that should keep the letter-free ID compares
`tuples[i][0]` with itself and never fires.  The pair is recorded as
merged and the hash_ids are unioned onto the surviving row. -/
theorem auto_merge_entries_keeps_second_id :
    auto_merge_entries (fun _ => false)
      [⟨"Rai2020", {"h1"}⟩, ⟨"Rai2020a", {"h2"}⟩]
      [("Rai2020", "Rai2020a", 96/100, "not_processed")] (95/100) =
      ([⟨"Rai2020a", {"h1", "h2"}⟩],
        [("Rai2020", "Rai2020a", 96/100, "merged")]) := by
  decide

/-! ## `colrev_core/process.py`: the record state machine (claims C6, C7) -/

/-- `RecordState` (imported by process.py from colrev_core.record), in
declaration order. -/
inductive RecordState where
  | md_retrieved
  | md_imported
  | md_needs_manual_preparation
  | md_prepared
  | md_processed
  | rev_prescreen_excluded
  | rev_prescreen_included
  | pdf_needs_manual_retrieval
  | pdf_imported
  | pdf_not_available
  | pdf_needs_manual_preparation
  | pdf_prepared
  | rev_excluded
  | rev_included
  | rev_synthesized
deriving DecidableEq, Fintype, Repr

/-- `str(state)`: the state's name. -/
def RecordState.str : RecordState → String
  | .md_retrieved => "md_retrieved"
  | .md_imported => "md_imported"
  | .md_needs_manual_preparation => "md_needs_manual_preparation"
  | .md_prepared => "md_prepared"
  | .md_processed => "md_processed"
  | .rev_prescreen_excluded => "rev_prescreen_excluded"
  | .rev_prescreen_included => "rev_prescreen_included"
  | .pdf_needs_manual_retrieval => "pdf_needs_manual_retrieval"
  | .pdf_imported => "pdf_imported"
  | .pdf_not_available => "pdf_not_available"
  | .pdf_needs_manual_preparation => "pdf_needs_manual_preparation"
  | .pdf_prepared => "pdf_prepared"
  | .rev_excluded => "rev_excluded"
  | .rev_included => "rev_included"
  | .rev_synthesized => "rev_synthesized"

/-- `ProcessModel.transitions` (process.py lines 259-345): the explicit
edge list `(trigger, source, dest)`, in source order. -/
def transitions : List (String × RecordState × RecordState) :=
  [("load", .md_retrieved, .md_imported),
   ("prep", .md_imported, .md_needs_manual_preparation),
   ("prep", .md_imported, .md_prepared),
   ("prep_man", .md_needs_manual_preparation, .md_prepared),
   ("dedupe", .md_prepared, .md_processed),
   ("prescreen", .md_processed, .rev_prescreen_excluded),
   ("prescreen", .md_processed, .rev_prescreen_included),
   ("pdf_get", .rev_prescreen_included, .pdf_imported),
   ("pdf_get", .rev_prescreen_included, .pdf_needs_manual_retrieval),
   ("pdf_get_man", .pdf_needs_manual_retrieval, .pdf_not_available),
   ("pdf_get_man", .pdf_needs_manual_retrieval, .pdf_imported),
   ("pdf_prep", .pdf_imported, .pdf_needs_manual_preparation),
   ("pdf_prep", .pdf_imported, .pdf_prepared),
   ("pdf_prep_man", .pdf_needs_manual_preparation, .pdf_prepared),
   ("screen", .pdf_prepared, .rev_excluded),
   ("screen", .pdf_prepared, .rev_included),
   ("data", .rev_included, .rev_synthesized)]

/-- One pass of the `for transition in ProcessModel.transitions` loop
inside `get_preceding_states` (process.py lines 391-396): the set is
mutated while the loop runs, so membership tests in the same pass see
earlier insertions; a left fold over the edge list models that
exactly. -/
def precedingStep (state : RecordState) (s : Finset RecordState) : Finset RecordState :=
  transitions.foldl
    (fun acc t => if t.2.2 ∈ acc ∨ state = t.2.2 then insert t.2.1 acc else acc) s

/-- The `while added` loop of `get_preceding_states` (lines 388-398):
iterate the pass until the set's size stops growing.  Each non-final
pass inserts at least one of the 15 states, so 16 passes always reach
the fixpoint; `get_preceding_states_fixpoint` below checks this. -/
def precedingAux (state : RecordState) : Nat → Finset RecordState → Finset RecordState
  | 0, s => s
  | fuel + 1, s =>
    let s' := precedingStep state s
    if s'.card = s.card then s else precedingAux state fuel s'

/-- `ProcessModel.get_preceding_states(state)` (lines 386-399). -/
def get_preceding_states (state : RecordState) : Finset RecordState :=
  precedingAux state 16 ∅

/-- The fuel bound in `get_preceding_states` is sufficient: the result
is a fixpoint of the loop body for every state. -/
theorem get_preceding_states_fixpoint :
    ∀ s : RecordState, precedingStep s (get_preceding_states s) = get_preceding_states s := by
  decide

/-- A state is non-terminal when it has an outgoing transition. -/
def isNonTerminal (s : RecordState) : Bool :=
  transitions.any (fun t => t.2.1 = s)

/-- Claim C6, counterexample: `get_preceding_states(md_imported)` is
not empty — the `load` transition into `md_imported` puts
`md_retrieved` into it. -/
theorem get_preceding_states_md_imported_ne_empty :
    get_preceding_states RecordState.md_imported ≠ (∅ : Finset RecordState) := by
  decide

/-- Claim C6, amended: `get_preceding_states(rev_synthesized)` contains
every non-terminal state of the pipeline, and
`get_preceding_states(md_imported)` is exactly `{md_retrieved}` (not
the empty set: the state that precedes `md_imported` is the initial
retrieval state). -/
theorem get_preceding_states_spec :
    (Finset.univ.filter (fun s => isNonTerminal s = true) ⊆
      get_preceding_states RecordState.rev_synthesized) ∧
    get_preceding_states RecordState.md_imported = {RecordState.md_retrieved} := by
  decide

/-- The outcome of `ProcessModel.check_process_precondition`
(process.py lines 401-419): pass, `NoRecordsError`, or
`ProcessOrderViolation(process, self.state, intersection)`. -/
inductive PrecondResult where
  | ok
  | noRecords
  | processOrderViolation (required : RecordState) (violating : Finset String)
deriving DecidableEq

/-- `ProcessModel.check_process_precondition` (lines 401-419).  `delay`
is `settings.project.delay_automated_processing` (the body only runs
when it equals `"True"`), `cur_state_list` is
`REVIEW_DATASET.get_states_set()` (the set of state strings of the
records in the dataset), `state` is the process model's start state and
`process_type_name` is `process.type.name`. -/
def check_process_precondition (delay : String) (cur_state_list : Finset String)
    (state : RecordState) (process_type_name : String) : PrecondResult :=
  if delay = "True" then
    let required_absent := (get_preceding_states state).image RecordState.str
    let intersection := cur_state_list ∩ required_absent
    if cur_state_list.card = 0 ∧ ¬ process_type_name = "load" then .noRecords
    else if intersection.card ≠ 0 then .processOrderViolation state intersection
    else .ok
  else .ok

/-- Claim C7: with delayed automated processing enabled, the
precondition check computes the transitive closure of states that must
precede the target stage's source state; if any record's state lies in
that set, it fails with `ProcessOrderViolation` carrying exactly the
offending states, before any work starts; if records exist and none is
in the offending set, the check passes (and, being pure, modifies
nothing). -/
theorem check_process_precondition_spec :
    ∀ (cur : Finset String) (state : RecordState) (ptype : String),
      (cur ∩ (get_preceding_states state).image RecordState.str ≠ ∅ →
        check_process_precondition "True" cur state ptype =
          .processOrderViolation state
            (cur ∩ (get_preceding_states state).image RecordState.str)) ∧
      (cur ≠ ∅ → cur ∩ (get_preceding_states state).image RecordState.str = ∅ →
        check_process_precondition "True" cur state ptype = .ok) := by
  intro cur state ptype
  constructor
  · intro hne
    unfold check_process_precondition
    rw [if_pos rfl]
    have hcur : ¬ cur.card = 0 := by
      intro h0
      rw [Finset.card_eq_zero] at h0
      apply hne
      rw [h0]
      exact Finset.empty_inter _
    rw [if_neg (fun hand => hcur hand.1)]
    rw [if_pos (fun hcard => hne (Finset.card_eq_zero.mp hcard))]
  · intro hcur hint
    unfold check_process_precondition
    rw [if_pos rfl]
    rw [if_neg (fun hand => hcur (Finset.card_eq_zero.mp hand.1))]
    rw [if_neg (fun hcard => hcard (by rw [hint]; exact Finset.card_empty))]

/-- Witness for C7: the `dedupe` stage starts from `md_prepared`; a
dataset holding a record still in `md_imported` violates the order and
the check reports exactly that state, while a dataset whose records
have all reached `rev_included` passes. -/
theorem check_process_precondition_witness :
    check_process_precondition "True" {"md_imported"} RecordState.md_prepared "dedupe" =
      .processOrderViolation RecordState.md_prepared
        ({"md_imported"} ∩
          (get_preceding_states RecordState.md_prepared).image RecordState.str) ∧
    check_process_precondition "True" {"rev_included"} RecordState.md_prepared "dedupe" =
      .ok :=
  ⟨(check_process_precondition_spec _ _ _).1 (by decide),
   (check_process_precondition_spec _ _ _).2 (by decide) (by decide)⟩

/-! ## `Record.merge` title compatibility (claim C8) -/

/-- Whether `pat` occurs as a substring of `s`. -/
def containsSub (pat : Str) : Str → Bool
  | [] => decide (pat = [])
  | c :: rest => pat.isPrefixOf (c :: rest) || containsSub pat rest

/-- The substring after the first occurrence of `pat`, when `pat`
occurs in `s`. -/
def afterSub (pat : Str) : Str → Option Str
  | [] => if pat = [] then some [] else none
  | c :: rest =>
    if pat.isPrefixOf (c :: rest) then some ((c :: rest).drop pat.length)
    else afterSub pat rest

/-- Modelled from the spec: a lowercased title carries an
errata/corrigendum marker ("mismatched errata/corrigendum markers";
`Record.merge` itself is not part of the source tree here, only its
tests are). -/
def hasErratumMarker (t : Str) : Bool :=
  containsSub "erratum".toList t || containsSub "corrigendum".toList t

/-- Modelled from the spec: a lowercased title carries a
"commentary"/companion-piece marker. -/
def hasCommentaryMarker (t : Str) : Bool := containsSub "commentary".toList t

/-- Modelled from the spec: the two lowercased titles carry part
suffixes that do not match ("Part 1" vs "Part 2"): both contain "part"
and the text after its first occurrence differs. -/
def partsMismatch (la lb : Str) : Bool :=
  match afterSub "part".toList la, afterSub "part".toList lb with
  | some sa, some sb => decide (sa ≠ sb)
  | _, _ => false

/-- Modelled from the spec: the titles indicate semantically different
documents despite high similarity — mismatched part suffixes,
mismatched errata/corrigendum markers, or mismatched commentary
markers where only one side carries the marker. -/
def titles_semantically_different (ta tb : String) : Bool :=
  let la := pyLower ta.toList
  let lb := pyLower tb.toList
  partsMismatch la lb ||
    (hasErratumMarker la != hasErratumMarker lb) ||
    (hasCommentaryMarker la != hasCommentaryMarker lb)

/-- Modelled from the spec: `Record.merge(merging_record,
default_source)` raises `InvalidMerge` — leaving both records unmerged
— when the titles indicate semantically different documents; the
successful branch's field reconciliation is beyond this claim and is
left as the unchanged pair. -/
def record_merge (self merging : BibRec) (default_source : String) :
    Except String (BibRec × BibRec) :=
  if titles_semantically_different self.title merging.title then .error "InvalidMerge"
  else .ok (self, merging)

theorem partsMismatch_comm (la lb : Str) : partsMismatch la lb = partsMismatch lb la := by
  unfold partsMismatch
  rcases afterSub "part".toList la with - | sa <;> rcases afterSub "part".toList lb with - | sb <;>
    simp [decide_eq_decide]
  exact eq_comm

theorem titles_semantically_different_comm (ta tb : String) :
    titles_semantically_different ta tb = titles_semantically_different tb ta := by
  simp only [titles_semantically_different]
  rw [partsMismatch_comm]
  rcases h1 : hasErratumMarker (pyLower ta.toList) <;>
    rcases h2 : hasErratumMarker (pyLower tb.toList) <;>
    rcases h3 : hasCommentaryMarker (pyLower ta.toList) <;>
    rcases h4 : hasCommentaryMarker (pyLower tb.toList) <;>
    rfl

/-- Claim C8: whenever the two titles indicate semantically different
documents (mismatched part suffixes, errata/corrigendum markers, or
commentary markers carried by only one side), `merge` rejects the pair
with `InvalidMerge`, leaving both records unmerged, regardless of which
record is the merging side. -/
theorem record_merge_invalid_on_different_titles :
    ∀ (a b : BibRec) (ds : String),
      titles_semantically_different a.title b.title = true →
      record_merge a b ds = .error "InvalidMerge" ∧
      record_merge b a ds = .error "InvalidMerge" := by
  intro a b ds h
  constructor
  · unfold record_merge
    rw [if_pos h]
  · unfold record_merge
    rw [if_pos (by rw [titles_semantically_different_comm]; exact h)]

/-- Witness for C8: the concrete pairs of the source's own test
(mismatched part suffixes, an erratum marker on one side only, and a
commentary marker on one side only) are all rejected in both merge
directions. -/
theorem record_merge_invalid_witness :
    (record_merge { recEditorialA with title := "Editorial - Part 1" }
        { recEditorialB with title := "Editorial - Part 2" } "test" =
      .error "InvalidMerge" ∧
     record_merge { recEditorialB with title := "Editorial - Part 2" }
        { recEditorialA with title := "Editorial - Part 1" } "test" =
      .error "InvalidMerge") ∧
    (record_merge { recEditorialB with title := "Erratum - Editorial" }
        recEditorialA "test" = .error "InvalidMerge" ∧
     record_merge recEditorialA
        { recEditorialB with title := "Erratum - Editorial" } "test" =
      .error "InvalidMerge") ∧
    (record_merge { recEditorialA with title := "Editorial - a commentary to the other paper" }
        recEditorialB "test" = .error "InvalidMerge" ∧
     record_merge recEditorialB
        { recEditorialA with title := "Editorial - a commentary to the other paper" } "test" =
      .error "InvalidMerge") :=
  ⟨record_merge_invalid_on_different_titles _ _ "test" (by decide),
   record_merge_invalid_on_different_titles _ _ "test" (by decide),
   record_merge_invalid_on_different_titles _ _ "test" (by decide)⟩

/-! ## `colrev/loader/bib.py` provenance parsing (claim C9) -/

/-- A provenance entry: key, source, comma-joined note. -/
abbrev ProvEntry := Str × Str × Str

/-- `value.replace("\n", " ")` (the parser normalizes newlines the way
pybtex does). -/
def replaceNl (s : Str) : Str := s.map (fun c => if c = '\n' then ' ' else c)

/-- The index of the last occurrence of `ch` (Python `str.rfind`,
`none` for -1). -/
def lastIdx (ch : Char) : Str → Option Nat
  | [] => none
  | c :: rest =>
    match lastIdx ch rest with
    | some i => some (i + 1)
    | none => if c = ch then some 0 else none

/-- The index of the first occurrence of `ch` (Python `str.find`,
`none` for -1). -/
def firstIdx (ch : Char) : Str → Option Nat
  | [] => none
  | c :: rest => if c = ch then some 0 else (firstIdx ch rest).map (· + 1)

/-- `key_source.split(":", 1)` (the caller asserts a colon is
present). -/
def splitFirstColon (s : Str) : Str × Str :=
  match firstIdx ':' s with
  | some i => (s.take i, s.drop (i + 1))
  | none => (s, [])

/-- Python dict assignment `return_dict[key] = {...}`: overwrite in
place if the key exists, append otherwise. -/
def dictUpd (d : List ProvEntry) (k s n : Str) : List ProvEntry :=
  if d.any (fun e => decide (e.1 = k)) then
    d.map (fun e => if e.1 = k then (k, s, n) else e)
  else d ++ [(k, s, n)]

/-- One pass of the `for item in items` loop of `_load_field_dict`
(colrev/loader/bib.py lines 299-310): take everything before the last
semicolon of `item[:-1]` as `key:source` and what follows it (up to the
final character) as the note; the key and source split at the first
colon; `none` models the `AssertionError` when no colon is present. -/
def parseProvItem (d : List ProvEntry) (item : Str) : Option (List ProvEntry) :=
  match lastIdx ';' item.dropLast with
  | some i =>
    if ':' ∈ item.take i then
      let kv := splitFirstColon (item.take i)
      some (dictUpd d kv.1 kv.2 (item.dropLast.drop (i + 1)))
    else none
  | none =>
    if ':' ∈ item.dropLast then
      let kv := splitFirstColon item.dropLast
      some (dictUpd d kv.1 kv.2 item.dropLast)
    else none

/-- `BIBLoader._load_field_dict(value, field)` for
`field = colrev_masterdata_provenance` (colrev/loader/bib.py lines
272-311): an empty value parses to the empty dict; a value starting
with `CURATED` parses to the single curated entry, whose source is the
slice between the first colon and the last semicolon of `value[:-1]`;
otherwise the value is split on `"; "`, each nonempty piece is
left-stripped, re-terminated with `";"` and parsed as
`key:source;note;` (key and source split at the first colon, note
between the last semicolon of `item[:-1]` and the final character).
`none` models the `AssertionError` "problem with
masterdata_provenance_item" when a piece has no colon before its
note. -/
def load_masterdata_provenance (value : Str) : Option (List ProvEntry) :=
  if value = [] then some []
  else if value.take 7 = "CURATED".toList then
    let start := match firstIdx ':' value with | some i => i + 1 | none => 0
    let stop := match lastIdx ';' value.dropLast with
      | some i => i
      | none => value.length - 1
    some [("CURATED".toList, (value.take stop).drop start, [])]
  else
    let value := replaceNl value
    let items := ((splitSemiSp (value ++ [' '])).filter (fun x => ¬ x = [])).map
      (fun x => pyLstrip x ++ [';'])
    items.foldlM parseProvItem []

/-- Modelled from the spec: the literal emission grammar
`key1:source1;note1;; key2:source2;note2;;` — every entry terminated by
a semicolon pair and entries separated by single spaces.  (The emitter
is not part of the source tree here; this renders the spec's example
string exactly.) -/
def emitProvenanceSpec : List ProvEntry → Str
  | [] => []
  | [e] => e.1 ++ ':' :: e.2.1 ++ ';' :: e.2.2 ++ [';', ';']
  | e :: rest => (e.1 ++ ':' :: e.2.1 ++ ';' :: e.2.2 ++ [';', ';']) ++ ' ' :: emitProvenanceSpec rest

/-- One emitted provenance entry in the amended grammar:
`key:source;note;` — one semicolon terminating the source and one
terminating the note, so a semicolon pair appears exactly when the note
set is empty. -/
def entryStr (e : ProvEntry) : Str := e.1 ++ ':' :: e.2.1 ++ ';' :: e.2.2 ++ [';']

/-- Modelled from the spec (amended): entries rendered `key:source;note;`
and separated by single spaces (the source writer joins the items with
newlines, which the loader normalizes to spaces). -/
def emitProvenance : List ProvEntry → Str
  | [] => []
  | [e] => entryStr e
  | e :: rest => entryStr e ++ ' ' :: emitProvenance rest

/-- Claim C9, counterexample: emitting a map with a non-empty note set
in the spec's literal grammar (`pages:s1;n1;;`) and parsing it back is
lossy: the parser takes everything before the LAST semicolon of
`item[:-1]` as `key:source`, so the note is folded into the source
(`source = "s1;n1"`, `note = ""`) and the original map is not
recovered. -/
theorem provenance_spec_grammar_round_trip_fails :
    load_masterdata_provenance
        (emitProvenanceSpec [("pages".toList, "s1".toList, "n1".toList)]) =
      some [("pages".toList, "s1;n1".toList, [])] ∧
    load_masterdata_provenance
        (emitProvenanceSpec [("pages".toList, "s1".toList, "n1".toList)]) ≠
      some [("pages".toList, "s1".toList, "n1".toList)] := by
  decide

/-- The body of an emitted provenance entry, without its final
semicolon: `key:source;note`. -/
def entryBody (e : ProvEntry) : Str := e.1 ++ ':' :: e.2.1 ++ ';' :: e.2.2

/-- Well-formedness of a provenance entry for the round trip: the key
is nonempty and free of whitespace, colons and semicolons; source and
note are free of semicolons and newlines; the note does not start with
a space. -/
def entryWF (e : ProvEntry) : Bool :=
  decide (¬ e.1 = []) &&
  e.1.all (fun c => !(c.isWhitespace || c = ';' || c = ':')) &&
  e.2.1.all (fun c => !(c = ';' || c = '\n')) &&
  e.2.2.all (fun c => !(c = ';' || c = '\n')) &&
  (match e.2.2.head? with
   | some c => decide (¬ c = ' ')
   | none => true)

theorem entryStr_eq (e : ProvEntry) : entryStr e = entryBody e ++ [';'] := by
  simp [entryStr, entryBody]

theorem lastIdx_eq_none {ch : Char} : ∀ {s : Str}, ch ∉ s → lastIdx ch s = none
  | [], _ => rfl
  | c :: rest, h => by
    have hc : ¬ c = ch := fun hy => h (by simp [hy])
    have IH := lastIdx_eq_none (fun hy => h (List.mem_cons_of_mem _ hy))
    simp [lastIdx, IH, hc]

theorem lastIdx_append_last {ch : Char} :
    ∀ (x n : Str), ch ∉ n → lastIdx ch (x ++ ch :: n) = some x.length
  | [], n, hn => by simp [lastIdx, lastIdx_eq_none hn]
  | c :: x', n, hn => by
    have IH := lastIdx_append_last x' n hn
    simp [lastIdx, IH]

theorem firstIdx_append {ch : Char} :
    ∀ (x y : Str), ch ∉ x → firstIdx ch (x ++ ch :: y) = some x.length
  | [], y, _ => by simp [firstIdx]
  | c :: x', y, hx => by
    have hc : ¬ c = ch := fun hy => hx (by simp [hy])
    have IH := firstIdx_append x' y (fun hy => hx (List.mem_cons_of_mem _ hy))
    simp [firstIdx, hc, IH]

theorem pyLstrip_cons {c : Char} {s : Str} (h : c.isWhitespace = false) :
    pyLstrip (c :: s) = c :: s := by
  simp [pyLstrip, List.dropWhile_cons, h]

theorem hasSemiSp_append_no_semi :
    ∀ (a b : Str), ';' ∉ a → hasSemiSp b = false → hasSemiSp (a ++ b) = false
  | [], b, _, hb => hb
  | c :: a', b, ha, hb => by
    have hc : ¬ c = ';' := fun hy => ha (by simp [hy])
    have IH := hasSemiSp_append_no_semi a' b (fun hy => ha (List.mem_cons_of_mem _ hy)) hb
    cases hab : a' ++ b with
    | nil => simp only [List.cons_append, hab]; rfl
    | cons d rest =>
      show hasSemiSp (c :: (a' ++ b)) = false
      rw [hab]
      rw [hab] at IH
      simp [hasSemiSp, hc, IH]

theorem hasSemiSp_of_not_mem {s : Str} (h : ';' ∉ s) : hasSemiSp s = false := by
  have := hasSemiSp_append_no_semi s [] h rfl
  simpa using this

theorem hasSemiSp_entryBody {e : ProvEntry} (h : entryWF e = true) :
    hasSemiSp (entryBody e) = false := by
  rcases e with ⟨k, src, note⟩
  rw [entryWF] at h
  simp only [Bool.and_eq_true, decide_eq_true_iff, List.all_eq_true] at h
  obtain ⟨⟨⟨⟨-, hk⟩, hs⟩, hn⟩, hh⟩ := h
  have hksemi : ';' ∉ k ++ ':' :: src := by
    intro hmem
    rcases List.mem_append.mp hmem with hmem | hmem
    · have := hk _ hmem
      simp at this
    · rcases List.mem_cons.mp hmem with hmem | hmem
      · cases hmem
      · have := hs _ hmem
        simp at this
  have hnsemi : ';' ∉ note := by
    intro hmem
    have := hn _ hmem
    simp at this
  have htail : hasSemiSp (';' :: note) = false := by
    cases note with
    | nil => rfl
    | cons d n' =>
      have hd : ¬ d = ' ' := by
        have := hh
        simp only [List.head?] at this
        exact decide_eq_true_iff.mp this
      have hrest : hasSemiSp (d :: n') = false :=
        hasSemiSp_of_not_mem (fun hy => hnsemi hy)
      simp [hasSemiSp, hd, hrest]
  have : entryBody (k, src, note) = (k ++ ':' :: src) ++ ';' :: note := by
    simp [entryBody]
  rw [this]
  exact hasSemiSp_append_no_semi _ _ hksemi htail

theorem splitSemiSp_append :
    ∀ (a b : Str), hasSemiSp a = false →
      splitSemiSp (a ++ ';' :: ' ' :: b) = a :: splitSemiSp b
  | [], b, _ => by simp [splitSemiSp]
  | [c], b, ha => by
    have hcs : ¬ (c = ';' ∧ (';' : Char) = ' ') := by rintro ⟨-, h⟩; cases h
    show splitSemiSp (c :: ';' :: ' ' :: b) = [c] :: splitSemiSp b
    rw [splitSemiSp, if_neg hcs]
    have : splitSemiSp (';' :: ' ' :: b) = [] :: splitSemiSp b := by
      rw [splitSemiSp, if_pos ⟨rfl, rfl⟩]
    rw [this]
  | c :: d :: a', b, ha => by
    have h1 : ¬ (c = ';' ∧ d = ' ') := by
      rintro ⟨hc, hd⟩
      rw [hasSemiSp, hc, hd] at ha
      simp at ha
    have h2 : hasSemiSp (d :: a') = false := by
      rw [hasSemiSp, Bool.or_eq_false_iff] at ha
      exact ha.2
    have IH := splitSemiSp_append (d :: a') b h2
    show splitSemiSp (c :: d :: (a' ++ ';' :: ' ' :: b)) = (c :: d :: a') :: splitSemiSp b
    rw [splitSemiSp, if_neg h1]
    have heq : d :: (a' ++ ';' :: ' ' :: b) = (d :: a') ++ ';' :: ' ' :: b := rfl
    rw [heq, IH]

theorem entryBody_ne_nil {e : ProvEntry} (h : entryWF e = true) : ¬ entryBody e = [] := by
  rcases e with ⟨k, src, note⟩
  rw [entryWF] at h
  simp only [Bool.and_eq_true, decide_eq_true_iff] at h
  obtain ⟨⟨⟨⟨hk, -⟩, -⟩, -⟩, -⟩ := h
  cases k with
  | nil => exact absurd rfl hk
  | cons c k' => simp [entryBody]

theorem splitSemiSp_emit :
    ∀ l : List ProvEntry, ¬ l = [] → (∀ e ∈ l, entryWF e = true) →
      splitSemiSp (emitProvenance l ++ [' ']) = l.map entryBody ++ [[]]
  | [], h, _ => absurd rfl h
  | [e], _, hWF => by
    have hb : hasSemiSp (entryBody e) = false := hasSemiSp_entryBody (hWF e (by simp))
    show splitSemiSp (entryStr e ++ [' ']) = [entryBody e] ++ [[]]
    rw [entryStr_eq]
    have : (entryBody e ++ [';']) ++ [' '] = entryBody e ++ ';' :: ' ' :: [] := by simp
    rw [this, splitSemiSp_append _ _ hb]
    rfl
  | e :: e' :: rest, _, hWF => by
    have hb : hasSemiSp (entryBody e) = false := hasSemiSp_entryBody (hWF e (by simp))
    have IH := splitSemiSp_emit (e' :: rest) (by simp)
      (fun x hx => hWF x (List.mem_cons_of_mem _ hx))
    show splitSemiSp ((entryStr e ++ ' ' :: emitProvenance (e' :: rest)) ++ [' ']) =
      (entryBody e :: (e' :: rest).map entryBody) ++ [[]]
    rw [entryStr_eq]
    have : ((entryBody e ++ [';']) ++ ' ' :: emitProvenance (e' :: rest)) ++ [' '] =
        entryBody e ++ ';' :: ' ' :: (emitProvenance (e' :: rest) ++ [' ']) := by simp
    rw [this, splitSemiSp_append _ _ hb, IH]
    rfl

theorem dictUpd_append {d : List ProvEntry} {k s n : Str}
    (h : ∀ e ∈ d, ¬ e.1 = k) : dictUpd d k s n = d ++ [(k, s, n)] := by
  unfold dictUpd
  rw [if_neg]
  intro hany
  rw [List.any_eq_true] at hany
  obtain ⟨e, he, hk⟩ := hany
  exact h e he (of_decide_eq_true hk)

theorem parseProvItem_entry (d : List ProvEntry) (e : ProvEntry)
    (h : entryWF e = true) :
    parseProvItem d (entryBody e ++ [';']) =
      some (dictUpd d e.1 e.2.1 e.2.2) := by
  rcases e with ⟨k, src, note⟩
  rw [entryWF] at h
  simp only [Bool.and_eq_true, decide_eq_true_iff, List.all_eq_true] at h
  obtain ⟨⟨⟨⟨-, hk⟩, hs⟩, hn⟩, -⟩ := h
  have hkcolon : ':' ∉ k := by
    intro hmem
    have := hk _ hmem
    simp at this
  have hksemi : ';' ∉ k := by
    intro hmem
    have := hk _ hmem
    simp at this
  have hssemi : ';' ∉ src := by
    intro hmem
    have := hs _ hmem
    simp at this
  have hnsemi : ';' ∉ note := by
    intro hmem
    have := hn _ hmem
    simp at this
  have hbody : entryBody (k, src, note) = (k ++ ':' :: src) ++ ';' :: note := by
    unfold entryBody
    rw [List.append_assoc, List.cons_append]
  have hdrop : (entryBody (k, src, note) ++ [';']).dropLast = entryBody (k, src, note) := by
    rw [List.dropLast_concat]
  have hlast : lastIdx ';' (entryBody (k, src, note)) = some (k ++ ':' :: src).length := by
    rw [hbody]
    exact lastIdx_append_last _ _ hnsemi
  have htake : (entryBody (k, src, note) ++ [';']).take (k ++ ':' :: src).length =
      k ++ ':' :: src := by
    rw [hbody]
    rw [List.append_assoc]
    exact List.take_left _ _
  have hnote : (entryBody (k, src, note)).drop ((k ++ ':' :: src).length + 1) = note := by
    rw [hbody]
    have : (k ++ ':' :: src) ++ ';' :: note = ((k ++ ':' :: src) ++ [';']) ++ note := by
      simp
    rw [this]
    have hlen : ((k ++ ':' :: src) ++ [';']).length = (k ++ ':' :: src).length + 1 := by
      rw [List.length_append]
      rfl
    rw [← hlen]
    exact List.drop_left _ _
  have hmemcolon : ':' ∈ k ++ ':' :: src := List.mem_append.mpr (Or.inr (by simp))
  have hsplit : splitFirstColon (k ++ ':' :: src) = (k, src) := by
    have h1 : (k ++ ':' :: src).take k.length = k := List.take_left _ _
    have h2 : (k ++ ':' :: src).drop (k.length + 1) = src := by
      have he : k ++ ':' :: src = (k ++ [':']) ++ src := by simp
      rw [he]
      have hlen : (k ++ [':']).length = k.length + 1 := by simp
      rw [← hlen]
      exact List.drop_left _ _
    unfold splitFirstColon
    rw [firstIdx_append _ _ hkcolon]
    show ((k ++ ':' :: src).take k.length, (k ++ ':' :: src).drop (k.length + 1)) = (k, src)
    rw [h1, h2]
  simp only [parseProvItem, hdrop, hlast]
  rw [htake]
  rw [if_pos hmemcolon]
  rw [hsplit, hnote]

theorem parse_items_fold :
    ∀ (l d : List ProvEntry),
      (∀ e ∈ l, entryWF e = true) →
      (∀ e ∈ l, ∀ e' ∈ d, ¬ e'.1 = e.1) →
      (l.map (fun e => e.1)).Nodup →
      List.foldlM parseProvItem d (l.map (fun e => entryBody e ++ [';'])) =
        some (d ++ l)
  | [], d, _, _, _ => by simp
  | e :: rest, d, hWF, hkeys, hnd => by
    have h1 : parseProvItem d (entryBody e ++ [';']) =
        some (dictUpd d e.1 e.2.1 e.2.2) :=
      parseProvItem_entry d e (hWF e (by simp))
    have h2 : dictUpd d e.1 e.2.1 e.2.2 = d ++ [(e.1, e.2.1, e.2.2)] :=
      dictUpd_append (hkeys e (by simp))
    have hnd' : (rest.map (fun e => e.1)).Nodup := by
      rw [List.map_cons, List.nodup_cons] at hnd
      exact hnd.2
    have hkeyhead : e.1 ∉ rest.map (fun e => e.1) := by
      rw [List.map_cons, List.nodup_cons] at hnd
      exact hnd.1
    have hkeys' : ∀ x ∈ rest, ∀ e' ∈ d ++ [(e.1, e.2.1, e.2.2)], ¬ e'.1 = x.1 := by
      intro x hx e' he'
      rcases List.mem_append.mp he' with he' | he'
      · exact hkeys x (List.mem_cons_of_mem _ hx) e' he'
      · rcases List.mem_singleton.mp he' with rfl
        intro hcontra
        exact hkeyhead (by
          rw [hcontra]
          exact List.mem_map.mpr ⟨x, hx, rfl⟩)
    have IH := parse_items_fold rest (d ++ [(e.1, e.2.1, e.2.2)])
      (fun x hx => hWF x (List.mem_cons_of_mem _ hx)) hkeys' hnd'
    rw [List.map_cons, List.foldlM_cons, h1]
    show (List.foldlM parseProvItem (dictUpd d e.1 e.2.1 e.2.2)
      (rest.map (fun e => entryBody e ++ [';']))) = some (d ++ e :: rest)
    rw [h2, IH]
    have : (d ++ [(e.1, e.2.1, e.2.2)]) ++ rest = d ++ e :: rest := by
      rw [List.append_assoc]
      rfl
    rw [this]

theorem replaceNl_id {s : Str} (h : '\n' ∉ s) : replaceNl s = s := by
  unfold replaceNl
  have : ∀ c ∈ s, (if c = '\n' then ' ' else c) = c := by
    intro c hc
    rw [if_neg]
    intro hcontra
    rw [hcontra] at hc
    exact h hc
  rw [List.map_congr_left this]
  simp

theorem mem_entryStr {c : Char} {e : ProvEntry} (h : c ∈ entryStr e) :
    c = ';' ∨ c = ':' ∨ c ∈ e.1 ∨ c ∈ e.2.1 ∨ c ∈ e.2.2 := by
  rw [entryStr_eq, entryBody] at h
  simp only [List.mem_append, List.mem_cons, List.mem_singleton,
    List.not_mem_nil, or_false] at h
  tauto

theorem mem_emitProvenance :
    ∀ (l : List ProvEntry) (c : Char), c ∈ emitProvenance l →
      c = ' ' ∨ c = ';' ∨ c = ':' ∨ ∃ e ∈ l, c ∈ e.1 ∨ c ∈ e.2.1 ∨ c ∈ e.2.2
  | [], c, h => by cases h
  | [e], c, h => by
    rw [emitProvenance] at h
    rcases mem_entryStr h with h | h | h | h | h
    · exact Or.inr (Or.inl h)
    · exact Or.inr (Or.inr (Or.inl h))
    · exact Or.inr (Or.inr (Or.inr ⟨e, by simp, Or.inl h⟩))
    · exact Or.inr (Or.inr (Or.inr ⟨e, by simp, Or.inr (Or.inl h)⟩))
    · exact Or.inr (Or.inr (Or.inr ⟨e, by simp, Or.inr (Or.inr h)⟩))
  | e :: e' :: rest, c, h => by
    have hemit : emitProvenance (e :: e' :: rest) =
        entryStr e ++ ' ' :: emitProvenance (e' :: rest) := rfl
    rw [hemit] at h
    rcases List.mem_append.mp h with h | h
    · rcases mem_entryStr h with h | h | h | h | h
      · exact Or.inr (Or.inl h)
      · exact Or.inr (Or.inr (Or.inl h))
      · exact Or.inr (Or.inr (Or.inr ⟨e, by simp, Or.inl h⟩))
      · exact Or.inr (Or.inr (Or.inr ⟨e, by simp, Or.inr (Or.inl h)⟩))
      · exact Or.inr (Or.inr (Or.inr ⟨e, by simp, Or.inr (Or.inr h)⟩))
    · rcases List.mem_cons.mp h with h | h
      · exact Or.inl h
      · rcases mem_emitProvenance (e' :: rest) c h with h | h | h | ⟨x, hx, hc⟩
        · exact Or.inl h
        · exact Or.inr (Or.inl h)
        · exact Or.inr (Or.inr (Or.inl h))
        · exact Or.inr (Or.inr (Or.inr ⟨x, List.mem_cons_of_mem _ hx, hc⟩))

theorem emitProvenance_ne_nil :
    ∀ (l : List ProvEntry), ¬ l = [] → (∀ e ∈ l, entryWF e = true) →
      ¬ emitProvenance l = []
  | [], h, _ => absurd rfl h
  | [e], _, hWF => by
    rw [emitProvenance, entryStr_eq]
    intro hcontra
    exact entryBody_ne_nil (hWF e (by simp)) (List.append_eq_nil.mp hcontra).1
  | e :: e' :: rest, _, _ => by
    intro hcontra
    have hemit : emitProvenance (e :: e' :: rest) =
        entryStr e ++ ' ' :: emitProvenance (e' :: rest) := rfl
    rw [hemit] at hcontra
    cases (List.append_eq_nil.mp hcontra).2

theorem pyLstrip_entryBody {e : ProvEntry} (h : entryWF e = true) :
    pyLstrip (entryBody e) = entryBody e := by
  rcases e with ⟨k, src, note⟩
  rw [entryWF] at h
  simp only [Bool.and_eq_true, decide_eq_true_iff, List.all_eq_true] at h
  obtain ⟨⟨⟨⟨hk0, hk⟩, -⟩, -⟩, -⟩ := h
  cases k with
  | nil => exact absurd rfl hk0
  | cons c k' =>
    have hc : c.isWhitespace = false := by
      have := hk c (by simp)
      simp only [Bool.not_eq_true', Bool.or_eq_false_iff] at this
      exact this.1.1
    have hb : entryBody (c :: k', src, note) = c :: ((k' ++ ':' :: src) ++ ';' :: note) := by
      unfold entryBody
      simp
    rw [hb, pyLstrip_cons hc]

/-- Claim C9, amended: with the entry grammar `key:source;note;` (the
double semicolon of the spec's example appearing exactly when the note
set is empty), emitting and parsing is lossless: for every provenance
map whose entries are well formed (nonempty keys free of whitespace,
colons and semicolons; sources and notes free of semicolons and
newlines; notes not starting with a space) with pairwise distinct keys
and no `CURATED`-prefixed rendering — and for every curated singleton
map `{CURATED: source}` — parsing the emission returns exactly the
original map. -/
theorem load_field_dict_round_trip :
    ∀ l : List ProvEntry,
      ((∀ e ∈ l, entryWF e = true) ∧ (l.map (fun e => e.1)).Nodup ∧
        ¬ (emitProvenance l).take 7 = "CURATED".toList) ∨
      (∃ src, l = [("CURATED".toList, src, [])] ∧ ';' ∉ src) →
      load_masterdata_provenance (emitProvenance l) = some l := by
  intro l h
  rcases h with ⟨hWF, hnd, hcur⟩ | ⟨src, rfl, hsrc⟩
  · cases hl : l with
    | nil => decide
    | cons e rest =>
      rw [← hl]
      have hlne : ¬ l = [] := by rw [hl]; simp
      have hne : ¬ emitProvenance l = [] := emitProvenance_ne_nil l hlne hWF
      have hnl : '\n' ∉ emitProvenance l := by
        intro hmem
        rcases mem_emitProvenance l '\n' hmem with hx | hx | hx | ⟨x, hxl, hc⟩
        · cases hx
        · cases hx
        · cases hx
        · have hW := hWF x hxl
          rw [entryWF] at hW
          simp only [Bool.and_eq_true, decide_eq_true_iff, List.all_eq_true] at hW
          obtain ⟨⟨⟨⟨-, hk⟩, hs⟩, hn⟩, -⟩ := hW
          rcases hc with hc | hc | hc
          · have := hk _ hc
            simp at this
          · have := hs _ hc
            simp at this
          · have := hn _ hc
            simp at this
      unfold load_masterdata_provenance
      rw [if_neg hne, if_neg hcur, replaceNl_id hnl]
      dsimp only []
      rw [splitSemiSp_emit l hlne hWF]
      have hfilter : (l.map entryBody ++ [[]]).filter (fun x => decide (¬ x = [])) =
          l.map entryBody := by
        rw [List.filter_append]
        have h1 : (l.map entryBody).filter (fun x => decide (¬ x = [])) =
            l.map entryBody := by
          rw [List.filter_eq_self]
          intro a ha
          rw [List.mem_map] at ha
          obtain ⟨x, hx, hax⟩ := ha
          exact decide_eq_true (hax ▸ entryBody_ne_nil (hWF x hx))
        have h2 : ([[]] : List Str).filter (fun x => decide (¬ x = [])) = [] := rfl
        rw [h1, h2, List.append_nil]
      rw [hfilter]
      have hmap : (l.map entryBody).map (fun x => pyLstrip x ++ [';']) =
          l.map (fun e => entryBody e ++ [';']) := by
        rw [List.map_map]
        refine List.map_congr_left ?_
        intro x hx
        show pyLstrip (entryBody x) ++ [';'] = entryBody x ++ [';']
        rw [pyLstrip_entryBody (hWF x hx)]
      rw [hmap]
      rw [parse_items_fold l [] hWF (by intro x hx e' he'; cases he') hnd]
      rw [List.nil_append]
  · have hK : ("CURATED".toList : Str).length = 7 := by decide
    have hKcolon : ':' ∉ ("CURATED".toList : Str) := by decide
    have hemit : emitProvenance [(("CURATED".toList : Str), src, [])] =
        (("CURATED".toList ++ ':' :: src) ++ [';']) ++ [';'] := by
      rfl
    rw [hemit]
    have hvalne : ¬ ((("CURATED".toList ++ ':' :: src) ++ [';']) ++ [';'] : Str) = [] := by
      simp
    have hshape : ((("CURATED".toList ++ ':' :: src) ++ [';']) ++ [';'] : Str) =
        "CURATED".toList ++ ':' :: (src ++ [';'] ++ [';']) := by
      simp
    have htake7 : ((("CURATED".toList ++ ':' :: src) ++ [';']) ++ [';'] : Str).take 7 =
        "CURATED".toList := by
      rw [hshape]
      exact @List.take_left' Char ("CURATED".toList) (':' :: (src ++ [';'] ++ [';'])) 7 hK
    unfold load_masterdata_provenance
    rw [if_neg hvalne, if_pos htake7]
    have hfirst : firstIdx ':'
        ((("CURATED".toList ++ ':' :: src) ++ [';']) ++ [';'] : Str) = some 7 := by
      rw [hshape]
      have := firstIdx_append ("CURATED".toList) (src ++ [';'] ++ [';']) hKcolon
      rw [hK] at this
      exact this
    have hdrop : ((("CURATED".toList ++ ':' :: src) ++ [';']) ++ [';'] : Str).dropLast =
        ("CURATED".toList ++ ':' :: src) ++ [';'] := List.dropLast_concat ..
    have hlast : lastIdx ';' ((("CURATED".toList ++ ':' :: src) ++ [';']) : Str) =
        some ("CURATED".toList ++ ':' :: src).length := by
      have : (("CURATED".toList ++ ':' :: src) ++ [';'] : Str) =
          ("CURATED".toList ++ ':' :: src) ++ ';' :: [] := rfl
      rw [this]
      exact lastIdx_append_last _ _ (by simp)
    rw [hfirst, hdrop, hlast]
    dsimp only []
    have htakeL : ((("CURATED".toList ++ ':' :: src) ++ [';']) ++ [';'] : Str).take
        ("CURATED".toList ++ ':' :: src).length = "CURATED".toList ++ ':' :: src := by
      rw [List.append_assoc]
      exact List.take_left _ _
    rw [htakeL]
    have hdrop8 : (("CURATED".toList ++ ':' :: src : Str)).drop (7 + 1) = src := by
      have hsplit2 : ("CURATED".toList ++ ':' :: src : Str) =
          ("CURATED".toList ++ [':']) ++ src := by simp
      rw [hsplit2]
      have hlen8 : (("CURATED".toList ++ [':'] : Str)).length = 7 + 1 := by decide
      rw [← hlen8]
      exact List.drop_left _ _
    rw [hdrop8]

theorem load_field_dict_round_trip_witness :
    load_masterdata_provenance (emitProvenance
      [("author".toList, "import.bib/id_0001".toList, "quality_defect".toList),
       ("year".toList, "import.bib/id_0001".toList, [])]) =
    some [("author".toList, "import.bib/id_0001".toList, "quality_defect".toList),
          ("year".toList, "import.bib/id_0001".toList, [])] :=
  load_field_dict_round_trip
    [("author".toList, "import.bib/id_0001".toList, "quality_defect".toList),
     ("year".toList, "import.bib/id_0001".toList, [])]
    (Or.inl ⟨by decide, by decide, by decide⟩)
